import Mathlib

/-!
Shallow embedding of the `stably` contract-validation engine
(`src/base.ts`, `src/contract.ts`, `src/generate.ts`, `src/validation.ts`)
and proofs about its behaviour.

Conventions of the embedding:
* TypeScript optional fields become `Option` fields.
* JavaScript `Map`/`Set` built by insertion loops are embedded by the lookup
  function they denote once the build loop has finished (`Map.set` overwrites,
  so a later entry with the same key wins; `Set.has`/`includes` is list
  membership, duplicates being irrelevant).
* Actions carry an arbitrary payload type `π`; the source only ever reads the
  `type` field of an action.
-/

namespace Stably

/-- Embedding of `StablyBaseAction` / `StablyAction` (src/base.ts): a record with a required
string discriminant `type` and an arbitrary, unexamined payload. -/
structure StablyAction (π : Type) where
  type : String
  payload : π
deriving DecidableEq

/-- Embedding of `StablyContractStep` (src/contract.ts). -/
structure StablyContractStep where
  id : String
  actionType : String
  payloadSchemaId : Option String := none
  terminal : Option Bool := none
deriving DecidableEq

/-- Embedding of `StablyTransitionRule` (src/contract.ts); the source fields `from` and `to`
are Lean keywords and are embedded as `fromId` and `toIds`. -/
structure StablyTransitionRule where
  fromId : String
  toIds : List String
deriving DecidableEq

/-- One entry of `StablyStructuralRules.orderConstraints` (src/contract.ts). -/
structure OrderConstraint where
  before : String
  after : String
deriving DecidableEq

/-- Embedding of `StablyStructuralRules` (src/contract.ts). -/
structure StablyStructuralRules where
  allowedActionTypes : Option (List String) := none
  requiredSteps : Option (List String) := none
  orderConstraints : Option (List OrderConstraint) := none
  allowDynamicInsertion : Option Bool := none
  maxDepth : Option Nat := none
deriving DecidableEq

/-- Embedding of `StablyContract` (src/contract.ts). -/
structure StablyContract where
  id : String
  steps : List StablyContractStep
  transitions : Option (List StablyTransitionRule) := none
  structural : Option StablyStructuralRules := none
deriving DecidableEq

/-- Embedding of `PipelineValidationResult` / `ActionValidationResult` (src/validation.ts). -/
structure ValidationResult where
  ok : Bool
  errors : List String
deriving DecidableEq

/-- The `stepByActionType` map of `validatePipeline` (src/validation.ts lines
39-44): for a type tag, the list of steps declaring it, in declaration order. -/
def stepsForType (steps : List StablyContractStep) (t : String) : List StablyContractStep :=
  steps.filter (fun s => s.actionType == t)

/-- Error string of check 1 of `validatePipeline` (src/validation.ts line 53). -/
def disallowedTypeMsg (i : Nat) (t : String) : String :=
  "Action at index " ++ toString i ++ " has disallowed type \"" ++ t ++ "\"."

/-- Error string of check 2 of `validatePipeline` (src/validation.ts line 71). -/
def requiredStepMsg (r : String) : String :=
  "Required step \"" ++ r ++ "\" does not appear in the pipeline instance."

/-- Error string of check 3 of `validatePipeline` (src/validation.ts line 101). -/
def orderMsg (b a : String) : String :=
  "Order constraint violated: step \"" ++ b ++ "\" must appear before \"" ++ a ++ "\"."

/-- Error string of check 4 of `validatePipeline` (src/validation.ts line 130). -/
def transitionMsg (f t : String) : String :=
  "Transition from step \"" ++ f ++ "\" to \"" ++ t ++ "\" is not allowed by the contract."

/-- Error string of check 1 of `validateAction` (src/validation.ts line 162). -/
def actionDisallowedMsg (t : String) : String :=
  "Action has disallowed type \"" ++ t ++ "\"."

/-- Error string of check 2 of `validateAction` (src/validation.ts line 168). -/
def noStepMsg (t : String) : String :=
  "No contract step found for action type \"" ++ t ++ "\"."

variable {π π' : Type}

/-- Body of the `actions.forEach((action, index) => ...)` loop of check 1 of
`validatePipeline` (src/validation.ts lines 51-55), with the running index made
explicit. `allowed.contains` embeds membership in the `Set` built from the
`allowedActionTypes` list. -/
def allowedTypeErrorsFrom (allowed : List String) : Nat → List (StablyAction π) → List String
  | _, [] => []
  | i, a :: rest =>
      (if allowed.contains a.type then [] else [disallowedTypeMsg i a.type])
        ++ allowedTypeErrorsFrom allowed (i + 1) rest

/-- Check 1 of `validatePipeline` (src/validation.ts lines 48-56). -/
def allowedTypeErrors (actions : List (StablyAction π)) (sr : StablyStructuralRules) : List String :=
  match sr.allowedActionTypes with
  | some allowed => if allowed.length > 0 then allowedTypeErrorsFrom allowed 0 actions else []
  | none => []

/-- The `seenSteps` set of check 2 of `validatePipeline` (src/validation.ts
lines 60-67), as the list of ids inserted by the loop, in insertion order. -/
def seenStepIds (steps : List StablyContractStep) : List (StablyAction π) → List String
  | [] => []
  | a :: rest => (stepsForType steps a.type).map (fun s => s.id) ++ seenStepIds steps rest

/-- Check 2 of `validatePipeline` (src/validation.ts lines 58-74). -/
def requiredStepErrors (actions : List (StablyAction π)) (sr : StablyStructuralRules)
    (steps : List StablyContractStep) : List String :=
  match sr.requiredSteps with
  | some req =>
      if req.length > 0 then
        let seen := seenStepIds steps actions
        req.filterMap (fun r => if seen.contains r then none else some (requiredStepMsg r))
      else []
  | none => []

/-- The index list `idToIndices.get(id) ?? []` of check 3 of `validatePipeline`
after the build loop (src/validation.ts lines 78-87), with the running index
made explicit. The source pushes the index once per matching step, so an index
can be duplicated when two steps share the id; duplicates do not change
emptiness, minimum or maximum, and the embedding records each index once. -/
def indicesForFrom (steps : List StablyContractStep) (stepId : String) :
    Nat → List (StablyAction π) → List Nat
  | _, [] => []
  | i, a :: rest =>
      (if (stepsForType steps a.type).any (fun s => s.id == stepId) then [i] else [])
        ++ indicesForFrom steps stepId (i + 1) rest

/-- Sequence indices whose action maps (by type) to a step with the given id. -/
def indicesFor (steps : List StablyContractStep) (stepId : String)
    (actions : List (StablyAction π)) : List Nat :=
  indicesForFrom steps stepId 0 actions

/-- Embedding of `Math.max(...list)` over a possibly empty index list: `none` iff empty. -/
def listMax : List Nat → Option Nat
  | [] => none
  | n :: rest =>
      some (match listMax rest with
        | none => n
        | some m => max n m)

/-- Embedding of `Math.min(...list)` over a possibly empty index list: `none` iff empty. -/
def listMin : List Nat → Option Nat
  | [] => none
  | n :: rest =>
      some (match listMin rest with
        | none => n
        | some m => min n m)

/-- Body of the `for (const { before, after } of ...)` loop of check 3 of
`validatePipeline` (src/validation.ts lines 89-103) for one constraint pair. -/
def orderPairError (actions : List (StablyAction π)) (steps : List StablyContractStep)
    (oc : OrderConstraint) : Option String :=
  let beforeIndices := indicesFor steps oc.before actions
  let afterIndices := indicesFor steps oc.after actions
  match listMax beforeIndices, listMin afterIndices with
  | some maxBefore, some minAfter =>
      if maxBefore > minAfter then some (orderMsg oc.before oc.after) else none
  | _, _ => none

/-- Check 3 of `validatePipeline` (src/validation.ts lines 76-104). -/
def orderConstraintErrors (actions : List (StablyAction π)) (sr : StablyStructuralRules)
    (steps : List StablyContractStep) : List String :=
  match sr.orderConstraints with
  | some ocs => if ocs.length > 0 then ocs.filterMap (orderPairError actions steps) else []
  | none => []

/-- The `transitionMap` of check 4 of `validatePipeline` after the build loop
(src/validation.ts lines 108-111): `Map.set` overwrites, so the last rule with
a given `from` id wins. -/
def transitionLookup (ts : List StablyTransitionRule) (f : String) : Option (List String) :=
  (ts.reverse.find? (fun r => r.fromId == f)).map (fun r => r.toIds)

/-- Embedding of `possibleSteps[0]?.id` (src/validation.ts lines 113-118): first-match
disambiguation of an action type to a step id. -/
def resolveStepId (steps : List StablyContractStep) (t : String) : Option String :=
  ((stepsForType steps t).head?).map (fun s => s.id)

/-- The `for (let i = 0; ...)` loop over adjacent pairs of check 4 of
`validatePipeline` (src/validation.ts lines 120-132). The source guard is
`if (!fromId || !toId) continue`, and in JavaScript the empty string is falsy,
so a pair is skipped when either id is missing or is the empty string. -/
def adjacentTransitionErrors (lookup : String → Option (List String)) :
    List (Option String) → List String
  | x :: y :: rest =>
      (match x, y with
        | some f, some t =>
            if f == "" || t == "" then []
            else
              match lookup f with
              | some allowed => if allowed.contains t then [] else [transitionMsg f t]
              | none => []
        | _, _ => []) ++ adjacentTransitionErrors lookup (y :: rest)
  | _ => []

/-- Check 4 of `validatePipeline` (src/validation.ts lines 106-133). -/
def transitionErrors (actions : List (StablyAction π)) (c : StablyContract) : List String :=
  match c.transitions with
  | some ts =>
      if ts.length > 0 then
        adjacentTransitionErrors (transitionLookup ts)
          (actions.map (fun a => resolveStepId c.steps a.type))
      else []
  | none => []

/-- Embedding of `validatePipeline` (src/validation.ts lines 30-139): the four checks run in
a fixed order, each pushing into the single `errors` array. -/
def validatePipeline (actions : List (StablyAction π)) (contract : StablyContract) :
    ValidationResult :=
  let structuralRules := contract.structural.getD {}
  let errors :=
    allowedTypeErrors actions structuralRules
      ++ requiredStepErrors actions structuralRules contract.steps
      ++ orderConstraintErrors actions structuralRules contract.steps
      ++ transitionErrors actions contract
  { ok := errors.length == 0, errors := errors }

/-- Embedding of `validateAction` (src/validation.ts lines 151-178). -/
def validateAction (a : StablyAction π) (contract : StablyContract) : ValidationResult :=
  let structuralRules := contract.structural.getD {}
  let e1 :=
    match structuralRules.allowedActionTypes with
    | some allowedTypes =>
        if allowedTypes.length > 0 then
          if allowedTypes.contains a.type then [] else [actionDisallowedMsg a.type]
        else []
    | none => []
  let e2 :=
    match contract.steps.find? (fun step => step.actionType == a.type) with
    | some _ => []
    | none => [noStepMsg a.type]
  let errors := e1 ++ e2
  { ok := errors.length == 0, errors := errors }

/-- The object returned by `createValidator` (src/validation.ts lines 182-192). -/
structure Validator (π : Type) where
  contract : StablyContract
  validatePipeline : List (StablyAction π) → ValidationResult
  validateAction : StablyAction π → ValidationResult

/-- Embedding of `createValidator` (src/validation.ts lines 182-192): two closures over the
captured contract, the contract itself stored unchanged. -/
def createValidator (contract : StablyContract) : Validator π where
  contract := contract
  validatePipeline := fun actions => Stably.validatePipeline actions contract
  validateAction := fun a => Stably.validateAction a contract

/-- State of one traversal produced by `generate` (src/generate.ts lines
69-73): the `for..of` loop closes over the source list and keeps only a
cursor. -/
structure StablyGen (α : Type) where
  source : List α
  pos : Nat
deriving DecidableEq

/-- Embedding of `generate` (src/generate.ts): a fresh traversal starting at the front. -/
def generate (actions : List α) : StablyGen α :=
  { source := actions, pos := 0 }

/-- One pull from a traversal: the next yielded element (if any) and the
successor state. The source list is never modified. -/
def StablyGen.next (g : StablyGen α) : Option α × StablyGen α :=
  match g.source.get? g.pos with
  | some a => (some a, { source := g.source, pos := g.pos + 1 })
  | none => (none, g)

/-- Pull `n` times: the list of yielded elements and the final state. -/
def consumeN (g : StablyGen α) : Nat → List α × StablyGen α
  | 0 => ([], g)
  | n + 1 =>
      match g.next with
      | (some a, g') =>
          let r := consumeN g' n
          (a :: r.1, r.2)
      | (none, g') => ([], g')

/-- Consume a traversal to exhaustion (fuelled by the remaining length). -/
def drainFuel : Nat → StablyGen α → List α
  | 0, _ => []
  | fuel + 1, g =>
      match g.next with
      | (some a, g') => a :: drainFuel fuel g'
      | (none, _) => []

/-- Consume a traversal to exhaustion. -/
def StablyGen.drain (g : StablyGen α) : List α :=
  drainFuel (g.source.length - g.pos) g

/-! ### Lemmas about `listMax` and `listMin` -/

theorem listMax_eq_none_iff {l : List Nat} : listMax l = none ↔ l = [] := by
  cases l <;> simp [listMax]

theorem listMin_eq_none_iff {l : List Nat} : listMin l = none ↔ l = [] := by
  cases l <;> simp [listMin]

theorem listMax_spec {l : List Nat} {m : Nat} (h : listMax l = some m) :
    m ∈ l ∧ ∀ x ∈ l, x ≤ m := by
  induction l generalizing m with
  | nil => simp [listMax] at h
  | cons n rest ih =>
      simp only [listMax, Option.some.injEq] at h
      cases hr : listMax rest with
      | none =>
          rw [hr] at h
          have h2 : n = m := h
          have hrest : rest = [] := listMax_eq_none_iff.mp hr
          subst h2
          subst hrest
          simp
      | some m' =>
          rw [hr] at h
          have h2 : max n m' = m := h
          obtain ⟨hmem, hub⟩ := ih hr
          have hn : n ≤ m := by
            rw [← h2]
            exact le_max_left n m'
          have hm' : m' ≤ m := by
            rw [← h2]
            exact le_max_right n m'
          constructor
          · rcases max_choice n m' with h3 | h3 <;> rw [h3] at h2
            · rw [← h2]
              exact List.mem_cons_self n rest
            · rw [← h2]
              exact List.mem_cons_of_mem n hmem
          · intro x hx
            rcases List.mem_cons.mp hx with h3 | h3
            · exact h3 ▸ hn
            · exact le_trans (hub x h3) hm'

theorem listMin_spec {l : List Nat} {m : Nat} (h : listMin l = some m) :
    m ∈ l ∧ ∀ x ∈ l, m ≤ x := by
  induction l generalizing m with
  | nil => simp [listMin] at h
  | cons n rest ih =>
      simp only [listMin, Option.some.injEq] at h
      cases hr : listMin rest with
      | none =>
          rw [hr] at h
          have h2 : n = m := h
          have hrest : rest = [] := listMin_eq_none_iff.mp hr
          subst h2
          subst hrest
          simp
      | some m' =>
          rw [hr] at h
          have h2 : min n m' = m := h
          obtain ⟨hmem, hlb⟩ := ih hr
          have hn : m ≤ n := by
            rw [← h2]
            exact min_le_left n m'
          have hm' : m ≤ m' := by
            rw [← h2]
            exact min_le_right n m'
          constructor
          · rcases min_choice n m' with h3 | h3 <;> rw [h3] at h2
            · rw [← h2]
              exact List.mem_cons_self n rest
            · rw [← h2]
              exact List.mem_cons_of_mem n hmem
          · intro x hx
            rcases List.mem_cons.mp hx with h3 | h3
            · exact h3 ▸ hn
            · exact le_trans hm' (hlb x h3)

/-! ### Lemmas about the step-index lists of the order-constraint check -/

theorem any_stepsForType {steps : List StablyContractStep} {t stepId : String} :
    ((stepsForType steps t).any (fun s => s.id == stepId)) = true ↔
      ∃ s ∈ steps, s.id = stepId ∧ s.actionType = t := by
  simp only [stepsForType, List.any_eq_true, List.mem_filter, beq_iff_eq]
  constructor
  · rintro ⟨s, ⟨hs, hty⟩, hid⟩
    exact ⟨s, hs, hid, hty⟩
  · rintro ⟨s, hs, hid, hty⟩
    exact ⟨s, ⟨hs, hty⟩, hid⟩

theorem mem_indicesForFrom {steps : List StablyContractStep} {stepId : String}
    {actions : List (StablyAction π)} {k i : Nat} :
    i ∈ indicesForFrom steps stepId k actions ↔
      ∃ j a, actions.get? j = some a ∧ i = k + j ∧
        ∃ s ∈ steps, s.id = stepId ∧ s.actionType = a.type := by
  induction actions generalizing k with
  | nil => simp [indicesForFrom]
  | cons a rest ih =>
      simp only [indicesForFrom, List.mem_append]
      constructor
      · intro h
        rcases h with h | h
        · by_cases hc : ((stepsForType steps a.type).any (fun s => s.id == stepId)) = true
          · rw [if_pos hc] at h
            simp only [List.mem_singleton] at h
            subst h
            exact ⟨0, a, by simp, by omega, any_stepsForType.mp hc⟩
          · rw [if_neg hc] at h
            simp at h
        · obtain ⟨j, b, hget, hij, hstep⟩ := ih.mp h
          exact ⟨j + 1, b, by simpa using hget, by omega, hstep⟩
      · rintro ⟨j, b, hget, hij, hstep⟩
        cases j with
        | zero =>
            simp only [List.get?_cons_zero, Option.some.injEq] at hget
            subst hget
            left
            rw [if_pos (any_stepsForType.mpr hstep)]
            simp
            omega
        | succ j' =>
            right
            refine ih.mpr ⟨j', b, ?_, by omega, hstep⟩
            simpa using hget

theorem mem_indicesFor {steps : List StablyContractStep} {stepId : String}
    {actions : List (StablyAction π)} {i : Nat} :
    i ∈ indicesFor steps stepId actions ↔
      ∃ a, actions.get? i = some a ∧
        ∃ s ∈ steps, s.id = stepId ∧ s.actionType = a.type := by
  rw [indicesFor, mem_indicesForFrom]
  constructor
  · rintro ⟨j, a, hget, hij, hstep⟩
    rw [show i = j by omega]
    exact ⟨a, hget, hstep⟩
  · rintro ⟨a, hget, hstep⟩
    exact ⟨i, a, hget, by omega, hstep⟩

/-! ### Lemmas about the per-pair order-constraint result -/

theorem orderPairError_none_of_empty {actions : List (StablyAction π)}
    {steps : List StablyContractStep} {oc : OrderConstraint}
    (h : indicesFor steps oc.before actions = [] ∨ indicesFor steps oc.after actions = []) :
    orderPairError actions steps oc = none := by
  rcases h with he | he
  · have hb : listMax (indicesFor steps oc.before actions) = none := by
      rw [listMax_eq_none_iff, he]
    simp only [orderPairError, hb]
  · have ha : listMin (indicesFor steps oc.after actions) = none := by
      rw [listMin_eq_none_iff, he]
    simp only [orderPairError, ha]
    cases listMax (indicesFor steps oc.before actions) <;> rfl

theorem orderPairError_iff {actions : List (StablyAction π)}
    {steps : List StablyContractStep} {oc : OrderConstraint} {mb ma : Nat}
    (hb : listMax (indicesFor steps oc.before actions) = some mb)
    (ha : listMin (indicesFor steps oc.after actions) = some ma) :
    (orderPairError actions steps oc = some (orderMsg oc.before oc.after) ↔ mb > ma)
      ∧ (orderPairError actions steps oc = none ↔ ¬mb > ma) := by
  simp only [orderPairError, hb, ha]
  by_cases h : mb > ma
  · simp [h]
  · simp [h]

theorem orderConstraintErrors_eq {actions : List (StablyAction π)}
    {sr : StablyStructuralRules} {steps : List StablyContractStep}
    {ocs : List OrderConstraint} (h : sr.orderConstraints = some ocs) :
    orderConstraintErrors actions sr steps = ocs.filterMap (orderPairError actions steps) := by
  simp only [orderConstraintErrors, h]
  cases ocs with
  | nil => simp
  | cons oc rest => simp

/-! ### Concrete fixtures used by witnesses and counterexamples -/

/-- A payload-free action used for concrete inputs. -/
def act (t : String) : StablyAction Unit :=
  { type := t, payload := () }

/-- The step list of spec §8 scenarios A-C: `s1:start, s2:middle, s3:end`. -/
def stepsABC : List StablyContractStep :=
  [{ id := "s1", actionType := "start" },
   { id := "s2", actionType := "middle" },
   { id := "s3", actionType := "end" }]

/-- Structural rules with the single order constraint `s1` before `s3`. -/
def srOrder : StablyStructuralRules :=
  { orderConstraints := some [{ before := "s1", after := "s3" }] }

/-- Contract of spec §8 scenario C, restricted to the order constraint. -/
def contractOrder : StablyContract :=
  { id := "demo", steps := stepsABC, structural := some srOrder }

/-- The action sequence of spec §8 scenario C: `[end, start]`. -/
def actsEndStart : List (StablyAction Unit) :=
  [act ("end"), act ("start")]

/-! ### Claim theorems -/

/-- Claim C1: for every action sequence and well-typed contract,
`validatePipeline` returns a result whose `ok` field is `true` exactly when its
`errors` list is empty, and whose `errors` list is the concatenation, in this
fixed order, of the diagnostics of the four checks (allowed-type errors, then
required-step errors, then order-constraint errors, then transition errors);
no check is skipped because an earlier check produced errors. -/
theorem claim_C1_error_accumulation (actions : List (StablyAction π)) (c : StablyContract) :
    (validatePipeline actions c).errors
        = allowedTypeErrors actions (c.structural.getD {})
            ++ requiredStepErrors actions (c.structural.getD {}) c.steps
            ++ orderConstraintErrors actions (c.structural.getD {}) c.steps
            ++ transitionErrors actions c
      ∧ ((validatePipeline actions c).ok = true ↔ (validatePipeline actions c).errors = []) := by
  refine ⟨rfl, ?_⟩
  simp [validatePipeline, List.length_eq_zero]

/-- Claim C2: for every order constraint in `structural.orderConstraints`,
`validatePipeline` collects the sequence indices of actions whose type maps
(via the contract's steps) to the `before` and `after` step ids; an empty index
list silences the pair, and otherwise the order-violation error is emitted
exactly when the maximum before-index is strictly greater than the minimum
after-index. -/
theorem claim_C2_order_constraints (actions : List (StablyAction π)) (c : StablyContract)
    (sr : StablyStructuralRules) (ocs : List OrderConstraint)
    (h1 : c.structural = some sr) (h2 : sr.orderConstraints = some ocs) :
    (validatePipeline actions c).errors
        = allowedTypeErrors actions sr
            ++ requiredStepErrors actions sr c.steps
            ++ ocs.filterMap (orderPairError actions c.steps)
            ++ transitionErrors actions c
      ∧ (∀ oc : OrderConstraint,
          (indicesFor c.steps oc.before actions = [] ∨ indicesFor c.steps oc.after actions = []) →
            orderPairError actions c.steps oc = none)
      ∧ (∀ (oc : OrderConstraint) (mb ma : Nat),
          listMax (indicesFor c.steps oc.before actions) = some mb →
            listMin (indicesFor c.steps oc.after actions) = some ma →
              (orderPairError actions c.steps oc = some (orderMsg oc.before oc.after) ↔ mb > ma)
                ∧ (orderPairError actions c.steps oc = none ↔ ¬mb > ma))
      ∧ (∀ (stepId : String) (i : Nat),
          i ∈ indicesFor c.steps stepId actions ↔
            ∃ a, actions.get? i = some a ∧
              ∃ s ∈ c.steps, s.id = stepId ∧ s.actionType = a.type) := by
  refine ⟨?_, ?_, ?_, ?_⟩
  · have : (validatePipeline actions c).errors
        = allowedTypeErrors actions sr
            ++ requiredStepErrors actions sr c.steps
            ++ orderConstraintErrors actions sr c.steps
            ++ transitionErrors actions c := by
      simp [validatePipeline, h1]
    rw [this, orderConstraintErrors_eq h2]
  · intro oc h
    exact orderPairError_none_of_empty h
  · intro oc mb ma hb ha
    exact orderPairError_iff hb ha
  · intro stepId i
    exact mem_indicesFor

/-- Witness for C2 at spec §8 scenario C: the scenario-C contract and the
sequence `[end, start]`. -/
theorem claim_C2_order_constraints_witness :
    (validatePipeline actsEndStart contractOrder).errors
        = allowedTypeErrors actsEndStart srOrder
            ++ requiredStepErrors actsEndStart srOrder contractOrder.steps
            ++ [({ before := "s1", after := "s3" } : OrderConstraint)].filterMap
                (orderPairError actsEndStart contractOrder.steps)
            ++ transitionErrors actsEndStart contractOrder :=
  (claim_C2_order_constraints actsEndStart contractOrder srOrder
    [{ before := "s1", after := "s3" }] rfl rfl).1

/-! ### Lemmas about the generator -/

theorem next_source (g : StablyGen α) : g.next.2.source = g.source := by
  unfold StablyGen.next
  cases g.source.get? g.pos <;> rfl

theorem consumeN_source (g : StablyGen α) (n : Nat) : (consumeN g n).2.source = g.source := by
  induction n generalizing g with
  | zero => rfl
  | succ n ih =>
      unfold consumeN
      cases hg : g.next with
      | mk o g' =>
          have hsrc : g'.source = g.source := by
            have := next_source g
            rw [hg] at this
            exact this
          cases o with
          | some a => simpa [hsrc] using ih g'
          | none => simpa using hsrc

theorem drop_of_get?_some {l : List α} {n : Nat} {a : α} (h : l.get? n = some a) :
    l.drop n = a :: l.drop (n + 1) := by
  rw [List.get?_eq_getElem?] at h
  have hn : n < l.length := by
    by_contra hc
    simp [List.getElem?_eq_none (Nat.le_of_not_lt hc)] at h
  rw [List.drop_eq_getElem_cons hn]
  simp only [List.getElem?_eq_getElem hn, Option.some.injEq] at h
  simp [h]

theorem drop_of_get?_none {l : List α} {n : Nat} (h : l.get? n = none) :
    l.drop n = [] := by
  rw [List.get?_eq_getElem?, List.getElem?_eq_none_iff] at h
  exact List.drop_eq_nil_of_le h

theorem consumeN_taken (src : List α) (pos n : Nat) :
    (consumeN { source := src, pos := pos } n).1 = (src.drop pos).take n := by
  induction n generalizing pos with
  | zero => simp [consumeN]
  | succ n ih =>
      unfold consumeN StablyGen.next
      cases h : src.get? pos with
      | some a => simp [ih, drop_of_get?_some h]
      | none => simp [drop_of_get?_none h]

theorem drainFuel_eq (src : List α) (pos fuel : Nat) :
    drainFuel fuel { source := src, pos := pos } = (src.drop pos).take fuel := by
  induction fuel generalizing pos with
  | zero => simp [drainFuel]
  | succ fuel ih =>
      unfold drainFuel StablyGen.next
      cases h : src.get? pos with
      | some a => simp [ih, drop_of_get?_some h]
      | none => simp [drop_of_get?_none h]

/-- Claim C8: `generate(actions)`, consumed to exhaustion, yields exactly
`actions` in original order; a partial consumption of `n` elements yields the
first `n` elements in order and leaves the source list untouched, and a fresh
`generate(actions)` call is unaffected by any other traversal's consumption. -/
theorem claim_C8_generate_traversal (actions : List α) (n : Nat) :
    (generate actions).drain = actions
      ∧ (consumeN (generate actions) n).1 = actions.take n
      ∧ (consumeN (generate actions) n).2.source = actions
      ∧ (generate ((consumeN (generate actions) n).2.source)).drain = actions := by
  have hdrain : (generate actions).drain = actions := by
    unfold StablyGen.drain generate
    rw [drainFuel_eq]
    simp
  have hsrc : (consumeN (generate actions) n).2.source = actions := consumeN_source _ n
  refine ⟨hdrain, ?_, hsrc, ?_⟩
  · have := consumeN_taken actions 0 n
    simpa [generate] using this
  · rw [hsrc, hdrain]

/-- Claim C9: the object returned by `createValidator(contract)` delegates
`validatePipeline` and `validateAction` to the §4.2/§4.3 functions with the
captured contract, and stores the supplied contract itself, uncopied and
unmutated. -/
theorem claim_C9_create_validator (c : StablyContract) (actions : List (StablyAction π))
    (a : StablyAction π) :
    (createValidator c).validatePipeline actions = validatePipeline actions c
      ∧ (createValidator c).validateAction a = validateAction a c
      ∧ (createValidator (π := π) c).contract = c :=
  ⟨rfl, rfl, rfl⟩

/-- Claim C7: `validateAction` always evaluates both of its checks and
accumulates their errors: the disallowed-type error appears exactly when
`structural.allowedActionTypes` is present, non-empty and excludes the action's
type; the no-step error appears exactly when no contract step declares the
action's type; `ok` is `true` exactly when neither error is emitted. -/
theorem claim_C7_validate_action (a : StablyAction π) (c : StablyContract) :
    (validateAction a c).errors
        = (match (c.structural.getD {}).allowedActionTypes with
            | some allowed =>
                if 0 < allowed.length ∧ a.type ∉ allowed
                then [actionDisallowedMsg a.type] else []
            | none => [])
          ++ (if ∀ s ∈ c.steps, s.actionType ≠ a.type then [noStepMsg a.type] else [])
      ∧ ((validateAction a c).ok = true ↔ (validateAction a c).errors = []) := by
  refine ⟨?_, ?_⟩
  · have hdef : (validateAction a c).errors
        = (match (c.structural.getD {}).allowedActionTypes with
            | some allowedTypes =>
                if allowedTypes.length > 0 then
                  if allowedTypes.contains a.type then [] else [actionDisallowedMsg a.type]
                else []
            | none => [])
          ++ (match c.steps.find? (fun step => step.actionType == a.type) with
            | some _ => []
            | none => [noStepMsg a.type]) := rfl
    rw [hdef]
    congr 1
    · cases h : (c.structural.getD {}).allowedActionTypes with
      | none => rfl
      | some allowed =>
          by_cases h1 : 0 < allowed.length
          · by_cases h2 : a.type ∈ allowed
            · simp [h1, h2, List.elem_iff]
            · simp [h1, h2, List.elem_iff]
          · simp [h1]
    · cases h : c.steps.find? (fun step => step.actionType == a.type) with
      | some s =>
          have hno : ¬∀ s' ∈ c.steps, s'.actionType ≠ a.type := by
            push_neg
            refine ⟨s, List.mem_of_find?_eq_some h, ?_⟩
            simpa using List.find?_some h
          rw [if_neg hno]
      | none =>
          have hall : ∀ s' ∈ c.steps, s'.actionType ≠ a.type := by
            intro s' hs'
            simpa using List.find?_eq_none.mp h s' hs'
          rw [if_pos hall]
  · simp [validateAction, List.length_eq_zero]

/-! ### Lemmas about the required-steps check -/

theorem mem_seenStepIds {steps : List StablyContractStep} {actions : List (StablyAction π)}
    {r : String} :
    r ∈ seenStepIds steps actions ↔
      ∃ s ∈ steps, s.id = r ∧ ∃ a ∈ actions, a.type = s.actionType := by
  induction actions with
  | nil => simp [seenStepIds]
  | cons a rest ih =>
      simp only [seenStepIds, List.mem_append, List.mem_map, ih]
      constructor
      · rintro (⟨s, hs, rfl⟩ | ⟨s, hs, hid, b, hb, hbt⟩)
        · rcases List.mem_filter.mp hs with ⟨hsteps, hty⟩
          refine ⟨s, hsteps, rfl, a, List.mem_cons_self a rest, ?_⟩
          have := beq_iff_eq.mp hty
          exact this.symm
        · exact ⟨s, hs, hid, b, List.mem_cons_of_mem a hb, hbt⟩
      · rintro ⟨s, hs, hid, b, hb, hbt⟩
        rcases List.mem_cons.mp hb with h | hb'
        · left
          subst h
          refine ⟨s, List.mem_filter.mpr ⟨hs, ?_⟩, hid⟩
          exact beq_iff_eq.mpr hbt.symm
        · right
          exact ⟨s, hs, hid, b, hb', hbt⟩

theorem contains_seenStepIds {steps : List StablyContractStep}
    {actions : List (StablyAction π)} {r : String} :
    (seenStepIds steps actions).contains r = true ↔
      ∃ s ∈ steps, s.id = r ∧ ∃ a ∈ actions, a.type = s.actionType :=
  (List.elem_iff).trans mem_seenStepIds

theorem filterMap_guard_eq_filter_map {α β : Type} (p : α → Bool) (f : α → β) (l : List α) :
    l.filterMap (fun x => if p x then none else some (f x))
      = (l.filter (fun x => !p x)).map f := by
  induction l with
  | nil => rfl
  | cons x rest ih =>
      by_cases h : p x = true
      · simp [List.filterMap_cons, List.filter_cons, h, ih]
      · simp only [Bool.not_eq_true] at h
        simp [List.filterMap_cons, List.filter_cons, h, ih]

theorem requiredStepErrors_eq_filter {actions : List (StablyAction π)}
    {sr : StablyStructuralRules} {steps : List StablyContractStep} {req : List String}
    (h2 : sr.requiredSteps = some req) :
    requiredStepErrors actions sr steps
      = (req.filter (fun r => !((seenStepIds steps actions).contains r))).map
          requiredStepMsg := by
  simp only [requiredStepErrors, h2]
  cases req with
  | nil => simp
  | cons r rest =>
      simp only [List.length_cons, Nat.zero_lt_succ, if_pos]
      exact filterMap_guard_eq_filter_map _ _ _

/-- Claim C4: in the required-steps check, an action marks as seen the ids of
all contract steps declaring its action type; the required-step error is
emitted exactly for the ids in `structural.requiredSteps` absent from the seen
set; and the emitted errors depend only on which action types occur in the
sequence, so repeating an occurrence produces no new error. -/
theorem claim_C4_required_steps (actions : List (StablyAction π)) (c : StablyContract)
    (sr : StablyStructuralRules) (req : List String)
    (h1 : c.structural = some sr) (h2 : sr.requiredSteps = some req) :
    (∀ r, r ∈ seenStepIds c.steps actions ↔
        ∃ s ∈ c.steps, s.id = r ∧ ∃ a ∈ actions, a.type = s.actionType)
      ∧ requiredStepErrors actions sr c.steps
          = (req.filter (fun r => !((seenStepIds c.steps actions).contains r))).map
              requiredStepMsg
      ∧ (∀ actions' : List (StablyAction π),
          (∀ t, (∃ a ∈ actions, a.type = t) ↔ (∃ b ∈ actions', b.type = t)) →
            requiredStepErrors actions' sr c.steps = requiredStepErrors actions sr c.steps)
      ∧ (validatePipeline actions c).errors
          = allowedTypeErrors actions sr
              ++ requiredStepErrors actions sr c.steps
              ++ orderConstraintErrors actions sr c.steps
              ++ transitionErrors actions c := by
  refine ⟨fun r => mem_seenStepIds, requiredStepErrors_eq_filter h2, ?_, ?_⟩
  · intro actions' hsame
    have hcont : ∀ r, (seenStepIds c.steps actions').contains r
        = (seenStepIds c.steps actions).contains r := by
      intro r
      have hiff : (seenStepIds c.steps actions').contains r = true ↔
          (seenStepIds c.steps actions).contains r = true := by
        rw [contains_seenStepIds, contains_seenStepIds]
        constructor
        · rintro ⟨s, hs, hid, b, hb, hbt⟩
          obtain ⟨a, ha, hat⟩ := (hsame s.actionType).mpr ⟨b, hb, hbt⟩
          exact ⟨s, hs, hid, a, ha, hat⟩
        · rintro ⟨s, hs, hid, a, ha, hat⟩
          obtain ⟨b, hb, hbt⟩ := (hsame s.actionType).mp ⟨a, ha, hat⟩
          exact ⟨s, hs, hid, b, hb, hbt⟩
      cases h' : (seenStepIds c.steps actions).contains r
      · rw [h'] at hiff
        cases h'' : (seenStepIds c.steps actions').contains r
        · rfl
        · exact absurd (hiff.mp h'') (by simp)
      · exact hiff.mpr h'
    rw [requiredStepErrors_eq_filter h2, requiredStepErrors_eq_filter h2]
    have hfilter : req.filter (fun r => !((seenStepIds c.steps actions').contains r))
        = req.filter (fun r => !((seenStepIds c.steps actions).contains r)) :=
      List.filter_congr (fun r _ => by rw [hcont r])
    rw [hfilter]
  · simp [validatePipeline, h1]

/-- Witness for C4: scenario-A style contract with required steps `s1`, `s3`;
the sequence `[start, end]` and the sequence `[start, start, end]` with the
`start` occurrence repeated produce the same required-step errors. -/
theorem claim_C4_required_steps_witness :
    requiredStepErrors [act ("start"), act ("start"), act ("end")]
        ({ requiredSteps := some ["s1", "s3"] } : StablyStructuralRules) stepsABC
      = requiredStepErrors [act ("start"), act ("end")]
        ({ requiredSteps := some ["s1", "s3"] } : StablyStructuralRules) stepsABC :=
  (claim_C4_required_steps [act ("start"), act ("end")]
      { id := "demo", steps := stepsABC,
        structural := some { requiredSteps := some ["s1", "s3"] } }
      { requiredSteps := some ["s1", "s3"] } ["s1", "s3"] rfl rfl).2.2.1
    [act ("start"), act ("start"), act ("end")]
    (by
      intro t
      simp [act])

/-- Claim C10 (implicit): a required step id that is not the id of any declared
contract step is reported missing for every action sequence, so such a
contract never validates any pipeline as ok. -/
theorem claim_C10_undeclared_required_step (actions : List (StablyAction π))
    (c : StablyContract) (sr : StablyStructuralRules) (req : List String) (r : String)
    (h1 : c.structural = some sr) (h2 : sr.requiredSteps = some req)
    (h3 : r ∈ req) (h4 : ∀ s ∈ c.steps, s.id ≠ r) :
    requiredStepMsg r ∈ (validatePipeline actions c).errors
      ∧ (validatePipeline actions c).ok = false := by
  have hcont : (seenStepIds c.steps actions).contains r = false := by
    cases h' : (seenStepIds c.steps actions).contains r
    · rfl
    · obtain ⟨s, hs, hid, -⟩ := contains_seenStepIds.mp h'
      exact absurd hid (h4 s hs)
  have hmem2 : requiredStepMsg r ∈ requiredStepErrors actions sr c.steps := by
    simp only [requiredStepErrors, h2]
    have hlen : 0 < req.length := List.length_pos_of_mem h3
    rw [if_pos hlen]
    refine List.mem_filterMap.mpr ⟨r, h3, ?_⟩
    rw [hcont]
    rfl
  have herr : (validatePipeline actions c).errors
      = allowedTypeErrors actions sr
          ++ requiredStepErrors actions sr c.steps
          ++ orderConstraintErrors actions sr c.steps
          ++ transitionErrors actions c := by
    simp [validatePipeline, h1]
  have hmem : requiredStepMsg r ∈ (validatePipeline actions c).errors := by
    rw [herr]
    simp only [List.append_assoc, List.mem_append]
    right
    left
    exact hmem2
  refine ⟨hmem, ?_⟩
  have hne : (validatePipeline actions c).errors ≠ [] := List.ne_nil_of_mem hmem
  have hok : (validatePipeline actions c).ok
      = ((validatePipeline actions c).errors.length == 0) := rfl
  rw [hok]
  cases herr2 : (validatePipeline actions c).errors with
  | nil => exact absurd herr2 hne
  | cons e rest => rfl

/-! ### Lemmas about the transition check -/

theorem adjacentTransitionErrors_eq (lookup : String → Option (List String))
    (ids : List (Option String)) :
    adjacentTransitionErrors lookup ids
      = (ids.zip ids.tail).filterMap (fun p =>
          match p with
          | (some f, some t) =>
              if f = "" ∨ t = "" then none
              else
                match lookup f with
                | some allowed => if t ∉ allowed then some (transitionMsg f t) else none
                | none => none
          | _ => none) := by
  induction ids with
  | nil => rfl
  | cons x rest ih =>
      cases rest with
      | nil => rfl
      | cons y rest' =>
          simp only [adjacentTransitionErrors]
          rw [ih]
          have hzip : ((x :: y :: rest').zip (x :: y :: rest').tail)
              = (x, y) :: ((y :: rest').zip (y :: rest').tail) := rfl
          rw [hzip, List.filterMap_cons]
          cases x with
          | none => rfl
          | some f =>
              cases y with
              | none => rfl
              | some t =>
                  by_cases hf : f = ""
                  · subst hf
                    simp
                  · by_cases ht : t = ""
                    · subst ht
                      simp [hf]
                    · have hbf : (f == "") = false := beq_eq_false_iff_ne.mpr hf
                      have hbt : (t == "") = false := beq_eq_false_iff_ne.mpr ht
                      simp only [hbf, hbt, Bool.or_self, Bool.false_or, if_neg,
                        Bool.false_eq_true, not_false_eq_true, hf, ht, or_self]
                      cases hl : lookup f with
                      | none => simp
                      | some allowed =>
                          by_cases hmem : t ∈ allowed
                          · simp [hmem, List.elem_iff]
                          · simp [hmem, List.elem_iff]

/-- Concrete input refuting C3 as stated: a contract step whose id is the
empty string. -/
def cexSteps : List StablyContractStep :=
  [{ id := "", actionType := "a" }]

/-- Transition rules of the C3 counterexample: a rule from the empty-string
step id allowing only `x`. -/
def cexTransitions : List StablyTransitionRule :=
  [{ fromId := "", toIds := ["x"] }]

/-- Contract of the C3 counterexample. -/
def cexContract : StablyContract :=
  { id := "cex", steps := cexSteps, transitions := some cexTransitions }

/-- The action sequence `[a, a]` of the C3 counterexample. -/
def cexActs : List (StablyAction Unit) :=
  [act ("a"), act ("a")]

/-- Counterexample to C3 as stated: in the sequence `[a, a]` both adjacent
actions resolve (first-match) to the step id `""`, a transition rule exists
for that `from` id, and the `to` id `""` is not in the rule's allowed set
`["x"]`, yet `validatePipeline` emits no transition error at all: the source
guard `if (!fromId || !toId) continue` also skips ids that are empty strings,
because the empty string is falsy in JavaScript. -/
theorem claim_C3_counterexample :
    resolveStepId cexContract.steps ((act ("a")).type) = some ""
      ∧ cexContract.transitions = some cexTransitions
      ∧ 0 < cexTransitions.length
      ∧ transitionLookup cexTransitions "" = some ["x"]
      ∧ "" ∉ (["x"] : List String)
      ∧ transitionMsg "" "" ∉ (validatePipeline cexActs cexContract).errors
      ∧ (validatePipeline cexActs cexContract).errors = []
      ∧ (validatePipeline cexActs cexContract).ok = true := by
  refine ⟨rfl, rfl, by decide, rfl, by decide, ?_, rfl, rfl⟩
  rw [show (validatePipeline cexActs cexContract).errors = [] from rfl]
  exact List.not_mem_nil _

/-- Claim C3, amended: when `contract.transitions` is present and non-empty,
each action is mapped to a step id by first-match in declaration order, and
for each adjacent pair where both actions resolve to a NON-EMPTY step id and a
transition rule exists for the `from` id, the transition error is emitted
exactly when the `to` id is not in that rule's allowed set; pairs where either
side fails to resolve — or resolves to the empty-string id, which the source's
falsiness guard also skips — produce no transition error. -/
theorem claim_C3_transitions_amended (actions : List (StablyAction π)) (c : StablyContract)
    (ts : List StablyTransitionRule) (h1 : c.transitions = some ts) (h2 : 0 < ts.length) :
    transitionErrors actions c
        = ((actions.map (fun a => resolveStepId c.steps a.type)).zip
              (actions.map (fun a => resolveStepId c.steps a.type)).tail).filterMap
            (fun p =>
              match p with
              | (some f, some t) =>
                  if f = "" ∨ t = "" then none
                  else
                    match transitionLookup ts f with
                    | some allowed => if t ∉ allowed then some (transitionMsg f t) else none
                    | none => none
              | _ => none)
      ∧ (∀ (s : StablyContractStep) (rest : List StablyContractStep) (t : String),
          resolveStepId (s :: rest) t
            = if s.actionType = t then some s.id else resolveStepId rest t)
      ∧ (validatePipeline actions c).errors
          = allowedTypeErrors actions (c.structural.getD {})
              ++ requiredStepErrors actions (c.structural.getD {}) c.steps
              ++ orderConstraintErrors actions (c.structural.getD {}) c.steps
              ++ transitionErrors actions c := by
  refine ⟨?_, ?_, rfl⟩
  · simp only [transitionErrors, h1, if_pos h2]
    exact adjacentTransitionErrors_eq _ _
  · intro s rest t
    by_cases h : s.actionType = t
    · simp [resolveStepId, stepsForType, List.filter_cons, h]
    · have hb : (s.actionType == t) = false := beq_eq_false_iff_ne.mpr h
      simp [resolveStepId, stepsForType, List.filter_cons, hb, h]

/-- Contract of spec §8 scenario D: transitions `s1→[s2]`, `s2→[s3]`. -/
def contractD : StablyContract :=
  { id := "demo", steps := stepsABC,
    transitions := some [{ fromId := "s1", toIds := ["s2"] },
                         { fromId := "s2", toIds := ["s3"] }] }

/-- Witness for the amended C3 at spec §8 scenario D: the sequence
`[start, end]`. -/
theorem claim_C3_transitions_amended_witness :
    transitionErrors [act ("start"), act ("end")] contractD
        = (([act ("start"), act ("end")].map
              (fun a => resolveStepId contractD.steps a.type)).zip
            ([act ("start"), act ("end")].map
              (fun a => resolveStepId contractD.steps a.type)).tail).filterMap
            (fun p =>
              match p with
              | (some f, some t) =>
                  if f = "" ∨ t = "" then none
                  else
                    match transitionLookup [{ fromId := "s1", toIds := ["s2"] },
                        { fromId := "s2", toIds := ["s3"] }] f with
                    | some allowed => if t ∉ allowed then some (transitionMsg f t) else none
                    | none => none
              | _ => none) :=
  (claim_C3_transitions_amended [act ("start"), act ("end")] contractD
    [{ fromId := "s1", toIds := ["s2"] }, { fromId := "s2", toIds := ["s3"] }]
    rfl (by decide)).1

/-! ### Structural-field and payload irrelevance -/

theorem allowedTypeErrors_structural {actions : List (StablyAction π)}
    {sr1 sr2 : StablyStructuralRules}
    (h : sr1.allowedActionTypes = sr2.allowedActionTypes) :
    allowedTypeErrors actions sr1 = allowedTypeErrors actions sr2 := by
  unfold allowedTypeErrors
  rw [h]

theorem requiredStepErrors_structural {actions : List (StablyAction π)}
    {sr1 sr2 : StablyStructuralRules} {steps : List StablyContractStep}
    (h : sr1.requiredSteps = sr2.requiredSteps) :
    requiredStepErrors actions sr1 steps = requiredStepErrors actions sr2 steps := by
  unfold requiredStepErrors
  rw [h]

theorem orderConstraintErrors_structural {actions : List (StablyAction π)}
    {sr1 sr2 : StablyStructuralRules} {steps : List StablyContractStep}
    (h : sr1.orderConstraints = sr2.orderConstraints) :
    orderConstraintErrors actions sr1 steps = orderConstraintErrors actions sr2 steps := by
  unfold orderConstraintErrors
  rw [h]

/-- Claim C5: `structural.allowDynamicInsertion` and `structural.maxDepth` are
declared but never enforced: two contracts agreeing on steps, transitions and
the three enforced structural fields — hence differing at most in those two
inert fields, whether present, absent or arbitrary — yield identical
`validatePipeline` results on every action sequence. -/
theorem claim_C5_inert_fields (actions : List (StablyAction π)) (c1 c2 : StablyContract)
    (hsteps : c1.steps = c2.steps) (htrans : c1.transitions = c2.transitions)
    (hallowed : (c1.structural.getD {}).allowedActionTypes
      = (c2.structural.getD {}).allowedActionTypes)
    (hreq : (c1.structural.getD {}).requiredSteps = (c2.structural.getD {}).requiredSteps)
    (horder : (c1.structural.getD {}).orderConstraints
      = (c2.structural.getD {}).orderConstraints) :
    validatePipeline actions c1 = validatePipeline actions c2 := by
  have h4 : transitionErrors actions c1 = transitionErrors actions c2 := by
    unfold transitionErrors
    rw [htrans, hsteps]
  simp only [validatePipeline, allowedTypeErrors_structural hallowed,
    requiredStepErrors_structural hreq, orderConstraintErrors_structural horder,
    hsteps, h4]

/-- Witness for C5: the scenario-C contract with and without
`allowDynamicInsertion := true` and `maxDepth := 3` validates `[end, start]`
identically. -/
theorem claim_C5_inert_fields_witness :
    validatePipeline actsEndStart contractOrder
      = validatePipeline actsEndStart
          { id := "demo", steps := stepsABC,
            structural := some { orderConstraints := some [{ before := "s1", after := "s3" }],
                                 allowDynamicInsertion := some true,
                                 maxDepth := some 3 } } :=
  claim_C5_inert_fields actsEndStart contractOrder
    { id := "demo", steps := stepsABC,
      structural := some { orderConstraints := some [{ before := "s1", after := "s3" }],
                           allowDynamicInsertion := some true,
                           maxDepth := some 3 } }
    rfl rfl rfl rfl rfl

theorem allowedTypeErrorsFrom_types {allowed : List String} {as1 : List (StablyAction π)}
    {as2 : List (StablyAction π')}
    (h : as1.map (fun a => a.type) = as2.map (fun a => a.type)) :
    ∀ i, allowedTypeErrorsFrom allowed i as1 = allowedTypeErrorsFrom allowed i as2 := by
  induction as1 generalizing as2 with
  | nil =>
      cases as2 with
      | nil => intro i; rfl
      | cons b rest2 => simp at h
  | cons a rest ih =>
      cases as2 with
      | nil => simp at h
      | cons b rest2 =>
          simp only [List.map_cons, List.cons.injEq] at h
          intro i
          simp only [allowedTypeErrorsFrom, h.1]
          rw [ih h.2 (i + 1)]

theorem seenStepIds_types {steps : List StablyContractStep} {as1 : List (StablyAction π)}
    {as2 : List (StablyAction π')}
    (h : as1.map (fun a => a.type) = as2.map (fun a => a.type)) :
    seenStepIds steps as1 = seenStepIds steps as2 := by
  induction as1 generalizing as2 with
  | nil =>
      cases as2 with
      | nil => rfl
      | cons b rest2 => simp at h
  | cons a rest ih =>
      cases as2 with
      | nil => simp at h
      | cons b rest2 =>
          simp only [List.map_cons, List.cons.injEq] at h
          simp only [seenStepIds, h.1]
          rw [ih h.2]

theorem indicesForFrom_types {steps : List StablyContractStep} {stepId : String}
    {as1 : List (StablyAction π)} {as2 : List (StablyAction π')}
    (h : as1.map (fun a => a.type) = as2.map (fun a => a.type)) :
    ∀ i, indicesForFrom steps stepId i as1 = indicesForFrom steps stepId i as2 := by
  induction as1 generalizing as2 with
  | nil =>
      cases as2 with
      | nil => intro i; rfl
      | cons b rest2 => simp at h
  | cons a rest ih =>
      cases as2 with
      | nil => simp at h
      | cons b rest2 =>
          simp only [List.map_cons, List.cons.injEq] at h
          intro i
          simp only [indicesForFrom, h.1]
          rw [ih h.2 (i + 1)]

/-- Claim C6: the validators never examine action payloads: two sequences with
pairwise equal `type` fields (arbitrary payloads, even of different payload
types) validate identically, and likewise two single actions with equal
`type`. -/
theorem claim_C6_payload_irrelevance (as1 : List (StablyAction π))
    (as2 : List (StablyAction π')) (c : StablyContract)
    (a1 : StablyAction π) (a2 : StablyAction π')
    (hseq : as1.map (fun a => a.type) = as2.map (fun a => a.type))
    (hact : a1.type = a2.type) :
    validatePipeline as1 c = validatePipeline as2 c
      ∧ validateAction a1 c = validateAction a2 c := by
  constructor
  · have h1 : allowedTypeErrors as1 (c.structural.getD {})
        = allowedTypeErrors as2 (c.structural.getD {}) := by
      unfold allowedTypeErrors
      cases (c.structural.getD {}).allowedActionTypes with
      | none => rfl
      | some allowed => simp only [allowedTypeErrorsFrom_types hseq 0]
    have h2 : requiredStepErrors as1 (c.structural.getD {}) c.steps
        = requiredStepErrors as2 (c.structural.getD {}) c.steps := by
      unfold requiredStepErrors
      rw [seenStepIds_types hseq]
    have h3 : orderConstraintErrors as1 (c.structural.getD {}) c.steps
        = orderConstraintErrors as2 (c.structural.getD {}) c.steps := by
      have hpair : orderPairError as1 c.steps = orderPairError as2 c.steps := by
        funext oc
        unfold orderPairError indicesFor
        rw [indicesForFrom_types hseq 0, indicesForFrom_types hseq 0]
      unfold orderConstraintErrors
      rw [hpair]
    have h4 : transitionErrors as1 c = transitionErrors as2 c := by
      have hids : as1.map (fun a => resolveStepId c.steps a.type)
          = as2.map (fun a => resolveStepId c.steps a.type) := by
        have e1 : as1.map (fun a => resolveStepId c.steps a.type)
            = (as1.map (fun a => a.type)).map (resolveStepId c.steps) := by
          rw [List.map_map]
          rfl
        have e2 : as2.map (fun a => resolveStepId c.steps a.type)
            = (as2.map (fun a => a.type)).map (resolveStepId c.steps) := by
          rw [List.map_map]
          rfl
        rw [e1, e2, hseq]
      unfold transitionErrors
      rw [hids]
    simp only [validatePipeline, h1, h2, h3, h4]
  · unfold validateAction
    rw [hact]

/-- Witness for C6: `[start]` with a unit payload and `[start]` with a numeric
payload validate identically, as do single `other`-typed actions with
different payloads. -/
theorem claim_C6_payload_irrelevance_witness :
    validatePipeline [act ("start")] contractOrder
        = validatePipeline [({ type := "start", payload := (7 : Nat) } : StablyAction Nat)]
            contractOrder
      ∧ validateAction (act ("other")) contractOrder
          = validateAction ({ type := "other", payload := (42 : Nat) } : StablyAction Nat)
              contractOrder :=
  claim_C6_payload_irrelevance [act ("start")]
    [{ type := "start", payload := (7 : Nat) }] contractOrder
    (act ("other")) { type := "other", payload := (42 : Nat) } rfl rfl

/-- Witness for C10: a contract whose required step `s9` is declared by no
step cannot validate `[start]`. -/
theorem claim_C10_undeclared_required_step_witness :
    requiredStepMsg "s9"
        ∈ (validatePipeline [act ("start")]
            { id := "demo", steps := stepsABC,
              structural := some { requiredSteps := some ["s9"] } }).errors
      ∧ (validatePipeline [act ("start")]
          { id := "demo", steps := stepsABC,
            structural := some { requiredSteps := some ["s9"] } }).ok = false :=
  claim_C10_undeclared_required_step [act ("start")]
    { id := "demo", steps := stepsABC, structural := some { requiredSteps := some ["s9"] } }
    { requiredSteps := some ["s9"] } ["s9"] "s9" rfl rfl (by decide) (by decide)

end Stably
